import Mathlib

/-!
Shallow embedding of the distillation-BERT repository
(`src/distillation/hidden_distillation.py`), centred on the feature
encoder `convert_examples_to_features`, the training-loop step, and the
checkpoint-resumption logic of `main`.  Strings are modelled as `List Char`,
Python lists as Lean lists, fallible code (uncaught exceptions, failing
`assert`s) as `Option`, and float arithmetic on the class weights /
learning rates as exact rational arithmetic over `ℚ`.
-/

namespace Distill

/-- A vocabulary label, e.g. the characters of `"弹\tdan4"` (line 106/129). -/
abbrev Label := List Char

/-- A token produced by the external tokenizer (`text` entries are lists of
token strings, produced by `tokenizer.tokenize` in `scripts/process_data_ime.py`). -/
abbrev Token := List Char

/-- `InputExample` (lines 50-67): one training/test instance. -/
structure InputExample where
  text : List Token
  label : List (Nat × Label)
  position : Nat
  char : List Char
deriving DecidableEq

/-- `InputFeatures` (lines 70-78): one encoded instance. -/
structure InputFeatures where
  input_ids : List Int
  input_mask : List Int
  label_ids : List Int
  label_pos : Nat
  char : List Char
deriving DecidableEq

/-- Normalisation of a single label (lines 125-127 and 195-196):
`if '\t' not in l: l = l[0] + '\t' + l[1:]`.  Python raises `IndexError`
on an empty label (`l[0]`), modelled as `none`. -/
def normLabelO (l : Label) : Option Label :=
  if ('\t' : Char) ∈ l then some l
  else
    match l with
    | [] => none
    | c :: rest => some (c :: '\t' :: rest)

/-- Normalisation of the whole label vocabulary (lines 125-127). -/
def normalizeLabelList : List Label → Option (List Label)
  | [] => some []
  | l :: ls =>
    match normLabelO l, normalizeLabelList ls with
    | some l', some ls' => some (l' :: ls')
    | _, _ => none

/-- `l.split('\t')[0]`: the character component of a label. -/
def splitChar (l : Label) : List Char :=
  l.takeWhile (fun c => c ≠ '\t')

/-- Index of the last occurrence of `l`, modelling the dict comprehension
`{label: i for i, label in enumerate(label_list)}` (line 129), where a later
duplicate key overwrites an earlier one. -/
def lastIdxOf : List Label → Label → Option Nat
  | [], _ => none
  | x :: xs, l =>
    match lastIdxOf xs l with
    | some j => some (j + 1)
    | none => if x = l then some 0 else none

/-- `label_map` lookup (lines 129-130): the enumeration map plus the
synthetic entry `label_map['_'] = -1`.  On a normalised vocabulary every
entry contains `'\t'`, so the `'_'` entry never shadows a vocabulary label. -/
def labelIndex (nll : List Label) (l : Label) : Option Int :=
  if l = ['_'] then some (-1)
  else
    match lastIdxOf nll l with
    | none => none
    | some k => some (k : Int)

/-- Python list indexing for a possibly negative index: `some` of the
actual position, `none` when the access raises `IndexError`. -/
def pyIdx (len : Nat) (i : Int) : Option Nat :=
  if 0 ≤ i then (if i < (len : Int) then some i.toNat else none)
  else (if 0 ≤ (len : Int) + i then some ((len : Int) + i).toNat else none)

/-- Python slice `xs[:n]` for an `int` bound `n` (negative bounds count
from the end). -/
def pySliceTo {α : Type} (xs : List α) (n : Int) : List α :=
  if 0 ≤ n then xs.take n.toNat else xs.take (xs.length - (-n).toNat)

/-- The `try` block of the annotation loop (lines 194-197): normalise the
annotation label, index `tokens[i + 1]`, compare with the label's character
component.  Any exception (`IndexError` from `l[0]` or `tokens[i+1]`,
failed `assert`) yields `none`, which the `except` clause turns into a
skip.  On success, returns the normalised label. -/
def checkAnnot (tokens : List Token) (i : Nat) (l : Label) : Option Label :=
  match normLabelO l with
  | none => none
  | some l' =>
    match tokens.get? (i + 1) with
    | none => none
    | some t => if t = splitChar l' then some l' else none

/-- The mutable state threaded through the annotation loop:
`label_ids` (line 191) and `label_count` (line 131). -/
structure AnnState where
  labelIds : List Int
  labelCount : List Nat
deriving DecidableEq

/-- One iteration of `for i, l in example.label` (lines 193-204).
The `except` clause catches failures of the `try` block and skips the
annotation; the `else` block (lines 202-204) runs unprotected, so a
`KeyError` on `label_map[l]` or an `IndexError` on `label_ids[i+1]` /
`label_count[...]` aborts the whole run (`none`). -/
def applyAnnot (nll : List Label) (tokens : List Token) (s : AnnState)
    (ann : Nat × Label) : Option AnnState :=
  match checkAnnot tokens ann.1 ann.2 with
  | none => some s
  | some l' =>
    match labelIndex nll l' with
    | none => none
    | some idx =>
      if ann.1 + 1 < s.labelIds.length then
        match pyIdx s.labelCount.length idx with
        | none => none
        | some j =>
          some ⟨s.labelIds.set (ann.1 + 1) idx, s.labelCount.set j (s.labelCount.getD j 0 + 1)⟩
      else none

/-- The whole annotation loop (lines 193-204). -/
def processAnnots (nll : List Label) (tokens : List Token) :
    AnnState → List (Nat × Label) → Option AnnState
  | s, [] => some s
  | s, a :: rest =>
    match applyAnnot nll tokens s a with
    | none => none
    | some s' => processAnnots nll tokens s' rest

def clsToken : Token := ['[', 'C', 'L', 'S', ']']
def sepToken : Token := ['[', 'S', 'E', 'P', ']']

/-- Lines 158-182: truncate the text to `max_seq_length - 2` tokens (the
bound is Python `int` arithmetic, hence the `Int` comparison) and wrap it
with the `[CLS]` / `[SEP]` markers. -/
def buildTokens (maxSeqLength : Nat) (text : List Token) : List Token :=
  clsToken ::
    (if (text.length : Int) > (maxSeqLength : Int) - 2 then
      pySliceTo text ((maxSeqLength : Int) - 2)
    else text) ++ [sepToken]

/-- Right-padding with zeros up to `max_seq_length` (lines 205-208);
Python `[0] * n` is empty for `n ≤ 0`, matching `Nat` subtraction. -/
def pyPad (maxSeqLength : Nat) (xs : List Int) : List Int :=
  xs ++ List.replicate (maxSeqLength - xs.length) 0

/-- Encoding of one example (lines 155-238).  The tokenizer is the external
collaborator `tokenizer.convert_tokens_to_ids`, modelled as a per-token map
(so `len(tokens) == len(input_ids)` holds by construction, line 185).
The `assert` statements of lines 209-214 are modelled as checks whose
failure aborts with `none`.  Returns the feature and the updated
`label_count`. -/
def encodeExample (nll : List Label) (maxSeqLength : Nat) (tok : Token → Int)
    (labelCount : List Nat) (ex : InputExample) : Option (InputFeatures × List Nat) :=
  match processAnnots nll (buildTokens maxSeqLength ex.text)
      ⟨List.replicate maxSeqLength (-1), labelCount⟩ ex.label with
  | none => none
  | some st =>
    if (pyPad maxSeqLength ((buildTokens maxSeqLength ex.text).map tok)).length = maxSeqLength
        ∧ (pyPad maxSeqLength (List.replicate (buildTokens maxSeqLength ex.text).length 1)).length
            = maxSeqLength
        ∧ st.labelIds.length = maxSeqLength then
      if ex.position + 1 < maxSeqLength then
        some (⟨pyPad maxSeqLength ((buildTokens maxSeqLength ex.text).map tok),
               pyPad maxSeqLength (List.replicate (buildTokens maxSeqLength ex.text).length 1),
               st.labelIds, ex.position + 1, ex.char⟩, st.labelCount)
      else none
    else none

/-- The example loop of `convert_examples_to_features`, threading
`label_count` through the examples in order. -/
def encodeAll (nll : List Label) (maxSeqLength : Nat) (tok : Token → Int) :
    List Nat → List InputExample → Option (List InputFeatures × List Nat)
  | cnt, [] => some ([], cnt)
  | cnt, ex :: rest =>
    match encodeExample nll maxSeqLength tok cnt ex with
    | none => none
    | some (f, cnt') =>
      match encodeAll nll maxSeqLength tok cnt' rest with
      | none => none
      | some (fs, cntF) => some (f :: fs, cntF)

/-- `max(label_count)` (line 240).  Python `max` raises on an empty list;
this model is only consulted for nonempty vocabularies. -/
def maxList (xs : List Nat) : Nat := xs.foldl max 0

/-- `weight = [(max(label_count) / (lc + 100))**1 for lc in label_count]`
(line 240), with float division modelled exactly over `ℚ`.  The 8-fold
replication of line 242 is dropped (one row of the replicated tensor). -/
def classWeight (cnt : List Nat) : List ℚ :=
  cnt.map (fun (lc : Nat) => (maxList cnt : ℚ) / ((lc : ℚ) + 100))

/-- The candidate mask (lines 133-140): `masks[i][j] = 0` exactly when `j`
is in `label_word[label_list[i].split('\t')[0]]`, i.e. when some vocabulary
entry shares label `i`'s character component and has `label_map` value `j`.
The 8-fold replication of line 140 is dropped (one layer of the stack). -/
def candMask (nll : List Label) (i j : Nat) : Nat :=
  if nll.any (fun lab =>
      decide (splitChar lab = splitChar (nll.getD i [])) && decide (lastIdxOf nll lab = some j))
  then 0 else 1

/-- `torch.tril(m, d)`: keep entries with `col ≤ row + d`. -/
def torchTril (m : Nat → Nat → Nat) (d : Int) (i j : Nat) : Nat :=
  if (j : Int) ≤ (i : Int) + d then m i j else 0

/-- `torch.triu(m, d)`: keep entries with `col ≥ row + d`. -/
def torchTriu (m : Nat → Nat → Nat) (d : Int) (i j : Nat) : Nat :=
  if (i : Int) + d ≤ (j : Int) then m i j else 0

/-- The all-ones matrix `torch.ones(max_seq_length, max_seq_length)`. -/
def onesMat : Nat → Nat → Nat := fun _ _ => 1

/-- The hybrid attention mask (lines 143-152): a 12-head stack where heads
0-1 hold `tril(ones)`, heads 2-3 hold `triu(ones)`, heads 4-5 hold
`triu(tril(ones, 1), -1)` and the remaining heads stay all-ones.  The
8-fold replication of line 152 is dropped. -/
def hybridMask (h i j : Nat) : Nat :=
  if h < 2 then torchTril onesMat 0 i j
  else if h < 4 then torchTriu onesMat 0 i j
  else if h < 6 then torchTriu (torchTril onesMat 1) (-1) i j
  else 1

/-- Result of `convert_examples_to_features` (line 243). -/
structure ConvertResult where
  features : List InputFeatures
  masks : Nat → Nat → Nat
  weight : List ℚ
  attention_mask : Nat → Nat → Nat → Nat

/-- `convert_examples_to_features(examples, label_list, max_seq_length,
tokenizer)` (lines 122-243): normalise the vocabulary, build the candidate
and attention masks, encode every example while counting label
occurrences, and derive the class weights from the final counts. -/
def convert_examples_to_features (ll : List Label) (maxSeqLength : Nat)
    (tok : Token → Int) (examples : List InputExample) : Option ConvertResult :=
  match normalizeLabelList ll with
  | none => none
  | some nll =>
    match encodeAll nll maxSeqLength tok (List.replicate nll.length 0) examples with
    | none => none
    | some (fs, cnt) => some ⟨fs, candMask nll, classWeight cnt, hybridMask⟩

/-- The feature-encoding portion of `main` (lines 559-565): encode the
train set, and under `--eval_every_epoch` encode the eval set as well,
REBINDING `masks, weight, hybrid_mask` to the second call's results.
Returns the train features together with the `weight` in effect afterwards. -/
def mainEncodingFlow (ll : List Label) (maxSeqLength : Nat) (tok : Token → Int)
    (trainEx evalEx : List InputExample) (evalEveryEpoch : Bool) :
    Option (List InputFeatures × List ℚ) :=
  match convert_examples_to_features ll maxSeqLength tok trainEx with
  | none => none
  | some r =>
    if evalEveryEpoch then
      match convert_examples_to_features ll maxSeqLength tok evalEx with
      | none => none
      | some r2 => some (r.features, r2.weight)
    else some (r.features, r.weight)

/-- The `weight` produced by encoding the train set alone. -/
def trainWeightOf (ll : List Label) (maxSeqLength : Nat) (tok : Token → Int)
    (trainEx : List InputExample) : Option (List ℚ) :=
  match convert_examples_to_features ll maxSeqLength tok trainEx with
  | none => none
  | some r => some r.weight

/-! ### Training loop (lines 593-626) -/

/-- Modelled from the spec: `warmup_linear` lives in the external library
`pytorch_pretrained_bert.optimization` (imported at line 42, not part of
this repository) — "linear ramp to target learning rate over a configured
warmup fraction of total steps": `x / warmup` below the warmup fraction,
`1` afterwards. -/
def warmup_linear (x warmup : ℚ) : ℚ :=
  if x < warmup then x / warmup else 1

/-- The configuration slice of `args` that the inner loop reads. -/
structure TrainConfig where
  fp16 : Bool
  accumSteps : Nat
  learningRate : ℚ
  warmupProportion : ℚ
  totalSteps : ℚ
deriving DecidableEq

/-- Observable training-loop state: `global_step` (line 556), the
optimizer's `param_group['lr']`, the accumulated backward gradient
(abstracted as the sum of back-propagated losses, reset by
`optimizer.zero_grad()`), `tr_loss` / `nb_tr_steps` (lines 594-595, 613-615)
and a log of `optimizer.step()` events as (accumulated gradient,
learning rate in effect) pairs. -/
structure TrainState where
  globalStep : Nat
  lrGroup : ℚ
  grad : ℚ
  trLoss : ℚ
  nbTrSteps : Nat
  updates : List (ℚ × ℚ)
deriving DecidableEq

/-- One iteration of `for step, batch in enumerate(train_dataloader)`
(lines 596-626), with the teacher/student forward pass abstracted into the
scalar per-batch `loss` (the multi-gpu `.mean()` reduction of line 604 is
outside this single-device model).  Lines 605-606 scale the loss by the
accumulation factor, lines 608-611 backpropagate (accumulate), and lines
616-626 gate the learning-rate recomputation (inside `if args.fp16:`),
`optimizer.step()`, `optimizer.zero_grad()` and the `global_step`
increment on `(step + 1) % accumulation == 0`. -/
def trainStep (cfg : TrainConfig) (s : TrainState) (step : Nat) (loss : ℚ) : TrainState :=
  let scaled := if 1 < cfg.accumSteps then loss / (cfg.accumSteps : ℚ) else loss
  let s1 : TrainState :=
    { s with grad := s.grad + scaled, trLoss := s.trLoss + scaled, nbTrSteps := s.nbTrSteps + 1 }
  if (step + 1) % cfg.accumSteps = 0 then
    let s2 : TrainState :=
      if cfg.fp16 then
        { s1 with lrGroup := cfg.learningRate *
            warmup_linear ((s1.globalStep : ℚ) / cfg.totalSteps) cfg.warmupProportion }
      else s1
    { s2 with updates := s2.updates ++ [(s2.grad, s2.lrGroup)], grad := 0,
              globalStep := s2.globalStep + 1 }
  else s1

/-- Folding `trainStep` over the enumerated batch losses of one epoch. -/
def runStepsFrom (cfg : TrainConfig) : TrainState → Nat → List ℚ → TrainState
  | s, _, [] => s
  | s, i, l :: ls => runStepsFrom cfg (trainStep cfg s i l) (i + 1) ls

/-- One epoch starting from step 0 (line 596 enumerates from 0). -/
def runEpochSteps (cfg : TrainConfig) (s : TrainState) (losses : List ℚ) : TrainState :=
  runStepsFrom cfg s 0 losses

/-! ### Checkpoint resumption (lines 451, 459-473, 552-554) -/

/-- Digit characters of a natural number, fuel-structured so the kernel
can evaluate it (`fuel = n + 1` always suffices). -/
def natReprAux : Nat → Nat → List Char
  | 0, _ => []
  | fuel + 1, n =>
    if n < 10 then [Char.ofNat (48 + n)]
    else natReprAux fuel (n / 10) ++ [Char.ofNat (48 + n % 10)]

def natRepr (n : Nat) : List Char := natReprAux (n + 1) n

/-- Python `str(i)` for an `int`. -/
def intRepr (i : Int) : List Char :=
  if i < 0 then '-' :: natRepr (-i).toNat else natRepr i.toNat

def digitVal (c : Char) : Option Nat :=
  if '0' ≤ c ∧ c ≤ '9' then some (c.toNat - '0'.toNat) else none

def parseNatCore : List Char → Nat → Option Nat
  | [], acc => some acc
  | c :: cs, acc =>
    match digitVal c with
    | some d => parseNatCore cs (acc * 10 + d)
    | none => none

/-- Python `int(s)` on a trimmed string: optional leading minus sign
followed by at least one digit; anything else raises `ValueError` (`none`). -/
def pyInt (s : List Char) : Option Int :=
  match s with
  | [] => none
  | c :: rest =>
    if c = '-' then
      if rest = [] then none else (parseNatCore rest 0).map (fun n => -(n : Int))
    else (parseNatCore (c :: rest) 0).map (fun n => (n : Int))

/-- `fname.split('_')[-1]`: the suffix after the last underscore. -/
def lastSplitU (s : List Char) : List Char :=
  (s.reverse.takeWhile (fun c => c ≠ '_')).reverse

/-- `re.search(WEIGHTS_NAME, fname)` (line 463), modelled as a literal
substring search (the only regex metacharacter in the external constant
`WEIGHTS_NAME = "pytorch_model.bin"` is `'.'`, which also matches itself). -/
def containsSub (pat s : List Char) : Bool :=
  (List.range (s.length + 1)).any (fun k => decide ((s.drop k).take pat.length = pat))

/-- The checkpoint filename `base + '_' + str(epoch)` (lines 465-466). -/
def epochFile (base : List Char) (e : Int) : List Char :=
  base ++ '_' :: intRepr e

/-- One step of the scan of lines 462-464: a file matching the weights
pattern (and differing from the bare pattern) contributes
`int(fname.split('_')[-1])` to the running `max`; a non-integer suffix
raises `ValueError` (`none`). -/
def findMaxStep (w : List Char) (acc : Option Int) (f : List Char) : Option Int :=
  match acc with
  | none => none
  | some a =>
    if containsSub w f && decide (f ≠ w) then
      match pyInt (lastSplitU f) with
      | none => none
      | some e => some (max a e)
    else some a

/-- The scan of lines 461-464, starting from `max_epoch = -1` (line 451). -/
def findMaxEpoch (w : List Char) (files : List (List Char)) : Option Int :=
  files.foldl (findMaxStep w) (some (-1))

/-- Outcome of the resumption logic: which epoch's weights file the model
was loaded from (`none` = fresh start), and which epoch's optimizer file
was loaded (line 552-554; `none` = optimizer file absent, fresh optimizer). -/
structure ResumeResult where
  modelEpoch : Option Int
  optimizerEpoch : Option Int
deriving DecidableEq

/-- Lines 459-473 plus 552-554 of `main`, restricted to the checkpoint
decision: with `do_train` set and a pre-existing non-empty output
directory (`files ≠ []`), discover the highest epoch, load the model from
exactly that epoch's weights file — or raise `ValueError` (`none`) when
that file is absent — and load the optimizer state from the same epoch's
optimizer file when it exists.  On the fresh path `max_epoch` stays `-1`,
so line 552 probes the (normally absent) `_-1` optimizer file. -/
def resumeModel (w o : List Char) (files : List (List Char)) (doTrain : Bool) :
    Option ResumeResult :=
  if files ≠ [] ∧ doTrain then
    match findMaxEpoch w files with
    | none => none
    | some me =>
      if epochFile w me ∈ files then
        some ⟨some me, if epochFile o me ∈ files then some me else none⟩
      else none
  else
    some ⟨none, if epochFile o (-1) ∈ files then some (-1) else none⟩

/-! ### Helper lemmas -/

lemma normLabelO_tab {l l' : Label} (h : normLabelO l = some l') : ('\t' : Char) ∈ l' := by
  unfold normLabelO at h
  by_cases ht : ('\t' : Char) ∈ l
  · rw [if_pos ht] at h
    cases h
    exact ht
  · rw [if_neg ht] at h
    match l, h with
    | c :: rest, h =>
      cases h
      simp

lemma checkAnnot_some_tab {tokens : List Token} {i : Nat} {l l' : Label}
    (h : checkAnnot tokens i l = some l') : ('\t' : Char) ∈ l' := by
  unfold checkAnnot at h
  cases hn : normLabelO l with
  | none => rw [hn] at h; cases h
  | some l'' =>
    rw [hn] at h
    dsimp only at h
    cases hg : tokens.get? (i + 1) with
    | none => rw [hg] at h; cases h
    | some t =>
      rw [hg] at h
      dsimp only at h
      by_cases ht : t = splitChar l''
      · rw [if_pos ht] at h
        cases h
        exact normLabelO_tab hn
      · rw [if_neg ht] at h
        cases h

lemma checkAnnot_some_lt {tokens : List Token} {i : Nat} {l l' : Label}
    (h : checkAnnot tokens i l = some l') : i + 1 < tokens.length := by
  unfold checkAnnot at h
  cases hn : normLabelO l with
  | none => rw [hn] at h; cases h
  | some l'' =>
    rw [hn] at h
    cases hg : tokens.get? (i + 1) with
    | none => rw [hg] at h; cases h
    | some t =>
      by_contra hlt
      push_neg at hlt
      rw [List.get?_eq_none.mpr hlt] at hg
      cases hg

lemma lastIdxOf_lt {xs : List Label} {l : Label} {j : Nat}
    (h : lastIdxOf xs l = some j) : j < xs.length := by
  induction xs generalizing j with
  | nil => cases h
  | cons x xs ih =>
    unfold lastIdxOf at h
    cases hr : lastIdxOf xs l with
    | some j' =>
      rw [hr] at h
      cases h
      have := ih hr
      simp only [List.length_cons]
      omega
    | none =>
      rw [hr] at h
      by_cases he : x = l
      · rw [if_pos he] at h
        cases h
        simp
      · rw [if_neg he] at h
        cases h

lemma lastIdxOf_get? {xs : List Label} {l : Label} {j : Nat}
    (h : lastIdxOf xs l = some j) : xs.get? j = some l := by
  induction xs generalizing j with
  | nil => cases h
  | cons x xs ih =>
    unfold lastIdxOf at h
    cases hr : lastIdxOf xs l with
    | some j' =>
      rw [hr] at h
      cases h
      simpa using ih hr
    | none =>
      rw [hr] at h
      by_cases he : x = l
      · rw [if_pos he] at h
        cases h
        simpa using he
      · rw [if_neg he] at h
        cases h

lemma lastIdxOf_isSome_of_mem {xs : List Label} {l : Label} (h : l ∈ xs) :
    ∃ j, lastIdxOf xs l = some j := by
  induction xs with
  | nil => cases h
  | cons x xs ih =>
    unfold lastIdxOf
    cases hr : lastIdxOf xs l with
    | some j => exact ⟨j + 1, rfl⟩
    | none =>
      rcases List.mem_cons.mp h with he | hm
      · exact ⟨0, by rw [if_pos he.symm]⟩
      · obtain ⟨j, hj⟩ := ih hm
        rw [hj] at hr
        cases hr

lemma lastIdxOf_none_of_not_mem {xs : List Label} {l : Label} (h : l ∉ xs) :
    lastIdxOf xs l = none := by
  induction xs with
  | nil => rfl
  | cons x xs ih =>
    unfold lastIdxOf
    rw [ih (fun hm => h (List.mem_cons_of_mem _ hm))]
    rw [if_neg (fun he : x = l => h (by rw [← he]; exact List.mem_cons_self _ _))]

lemma lastIdxOf_nodup {xs : List Label} (hnd : xs.Nodup) {j : Nat} (hj : j < xs.length) :
    lastIdxOf xs (xs.get ⟨j, hj⟩) = some j := by
  induction xs generalizing j with
  | nil => simp at hj
  | cons x xs ih =>
    rcases List.nodup_cons.mp hnd with ⟨hx, hnd'⟩
    match j with
    | 0 =>
      unfold lastIdxOf
      rw [lastIdxOf_none_of_not_mem (by simpa using hx)]
      simp
    | j + 1 =>
      unfold lastIdxOf
      have hj' : j < xs.length := by simpa using hj
      rw [show (x :: xs).get ⟨j + 1, hj⟩ = xs.get ⟨j, hj'⟩ from rfl]
      rw [ih hnd' hj']

lemma pySliceTo_length_nonneg {α : Type} (xs : List α) {n : Int} (h : 0 ≤ n) :
    (pySliceTo xs n).length = min n.toNat xs.length := by
  unfold pySliceTo
  rw [if_pos h]
  simp

lemma buildTokens_length_le {maxSeqLength : Nat} (text : List Token)
    (h : 2 ≤ maxSeqLength) : (buildTokens maxSeqLength text).length ≤ maxSeqLength := by
  unfold buildTokens
  by_cases hgt : (text.length : Int) > (maxSeqLength : Int) - 2
  · rw [if_pos hgt]
    simp only [List.length_cons, List.length_append, List.length_nil,
      pySliceTo_length_nonneg _ (by omega : (0 : Int) ≤ (maxSeqLength : Int) - 2),
      List.length_singleton]
    omega
  · rw [if_neg hgt]
    simp only [List.length_cons, List.length_append, List.length_nil, List.length_singleton]
    omega

lemma applyAnnot_lengths {nll : List Label} {tokens : List Token} {s s' : AnnState}
    {ann : Nat × Label} (h : applyAnnot nll tokens s ann = some s') :
    s'.labelIds.length = s.labelIds.length ∧ s'.labelCount.length = s.labelCount.length := by
  unfold applyAnnot at h
  split at h
  · cases h; exact ⟨rfl, rfl⟩
  · split at h
    · cases h
    · split at h
      · split at h
        · cases h
        · cases h; simp
      · cases h

lemma processAnnots_lengths {nll : List Label} {tokens : List Token}
    {anns : List (Nat × Label)} {s s' : AnnState}
    (h : processAnnots nll tokens s anns = some s') :
    s'.labelIds.length = s.labelIds.length ∧ s'.labelCount.length = s.labelCount.length := by
  induction anns generalizing s with
  | nil => cases h; exact ⟨rfl, rfl⟩
  | cons a rest ih =>
    unfold processAnnots at h
    cases ha : applyAnnot nll tokens s a with
    | none => rw [ha] at h; cases h
    | some s1 =>
      rw [ha] at h
      have h1 := applyAnnot_lengths ha
      have h2 := ih h
      exact ⟨h2.1.trans h1.1, h2.2.trans h1.2⟩

lemma pyPad_length {maxSeqLength : Nat} {xs : List Int} (h : xs.length ≤ maxSeqLength) :
    (pyPad maxSeqLength xs).length = maxSeqLength := by
  unfold pyPad
  simp only [List.length_append, List.length_replicate]
  omega

lemma applyAnnot_success {nll : List Label} {tokens : List Token} (s : AnnState)
    {i : Nat} {l l' : Label}
    (hch : checkAnnot tokens i l = some l')
    (hmem : l' ∈ nll)
    (hlen : i + 1 < s.labelIds.length)
    (hcnt : s.labelCount.length = nll.length) :
    ∃ k : Nat, lastIdxOf nll l' = some k ∧ k < nll.length ∧
      applyAnnot nll tokens s (i, l) =
        some ⟨s.labelIds.set (i + 1) (k : Int),
              s.labelCount.set k (s.labelCount.getD k 0 + 1)⟩ := by
  obtain ⟨k, hk⟩ := lastIdxOf_isSome_of_mem hmem
  have hklt := lastIdxOf_lt hk
  have htab := checkAnnot_some_tab hch
  have hne : l' ≠ ['_'] := by
    intro e
    rw [e] at htab
    simp at htab
  refine ⟨k, hk, hklt, ?_⟩
  unfold applyAnnot
  dsimp only
  rw [hch]
  dsimp only
  unfold labelIndex
  rw [if_neg hne, hk]
  dsimp only
  rw [if_pos hlen]
  unfold pyIdx
  rw [if_pos (by exact_mod_cast Int.ofNat_nonneg k)]
  rw [if_pos (by rw [hcnt]; exact_mod_cast hklt)]
  simp

lemma encodeExample_single {nll : List Label} {maxSeqLength : Nat} {tok : Token → Int}
    {cnt : List Nat} {ex : InputExample} {i : Nat} {l l' : Label}
    (hlab : ex.label = [(i, l)])
    (hmax : 2 ≤ maxSeqLength)
    (hpos : ex.position + 1 < maxSeqLength)
    (hch : checkAnnot (buildTokens maxSeqLength ex.text) i l = some l')
    (hmem : l' ∈ nll)
    (hcnt : cnt.length = nll.length) :
    ∃ k : Nat, lastIdxOf nll l' = some k ∧ k < nll.length ∧
      encodeExample nll maxSeqLength tok cnt ex =
        some (⟨pyPad maxSeqLength ((buildTokens maxSeqLength ex.text).map tok),
               pyPad maxSeqLength (List.replicate (buildTokens maxSeqLength ex.text).length 1),
               (List.replicate maxSeqLength (-1 : Int)).set (i + 1) (k : Int),
               ex.position + 1, ex.char⟩,
              cnt.set k (cnt.getD k 0 + 1)) := by
  have htlen := buildTokens_length_le ex.text hmax
  have hilt := checkAnnot_some_lt hch
  have hlen : i + 1 < (List.replicate maxSeqLength (-1 : Int)).length := by
    simp only [List.length_replicate]
    omega
  obtain ⟨k, hk, hklt, happ⟩ :=
    applyAnnot_success ⟨List.replicate maxSeqLength (-1), cnt⟩ hch hmem hlen hcnt
  refine ⟨k, hk, hklt, ?_⟩
  unfold encodeExample
  rw [hlab]
  unfold processAnnots
  rw [happ]
  unfold processAnnots
  dsimp only
  rw [if_pos ?cond, if_pos hpos]
  case cond =>
    refine ⟨pyPad_length (by simpa using htlen), pyPad_length (by simpa using htlen), ?_⟩
    simp only [List.length_set, List.length_replicate]

lemma checkAnnot_none_of_get?_none {tokens : List Token} {i : Nat} (l : Label)
    (h : tokens.get? (i + 1) = none) : checkAnnot tokens i l = none := by
  unfold checkAnnot
  cases hn : normLabelO l with
  | none => rfl
  | some l' =>
    dsimp only
    rw [h]

/-! ### Claim theorems -/

/-- **C1**: for every example and every `(position, label)` annotation, when
the token at `position + 1` equals the label's character component (the
`try` block of lines 194-197 succeeds), `label_ids[position + 1]` is set to
the label's vocabulary index and that label's occurrence count is
incremented; on a mismatch the annotation is logged and skipped without
failing the example; and an example with a single matching annotation
yields exactly one non-default entry in `label_ids`, at `position + 1`,
equal to that label's index. -/
theorem C1_annot_roundtrip
    (nll : List Label) (tokens : List Token) (s : AnnState) (i : Nat) (l l' : Label)
    (maxSeqLength : Nat) (tok : Token → Int) (cnt : List Nat) (ex : InputExample) :
    (checkAnnot tokens i l = some l' → l' ∈ nll → i + 1 < s.labelIds.length →
      s.labelCount.length = nll.length →
      ∃ k : Nat, lastIdxOf nll l' = some k ∧
        applyAnnot nll tokens s (i, l) =
          some ⟨s.labelIds.set (i + 1) (k : Int),
                s.labelCount.set k (s.labelCount.getD k 0 + 1)⟩)
    ∧ (checkAnnot tokens i l = none →
        applyAnnot nll tokens s (i, l) = some s)
    ∧ (ex.label = [(i, l)] → 2 ≤ maxSeqLength → ex.position + 1 < maxSeqLength →
        checkAnnot (buildTokens maxSeqLength ex.text) i l = some l' → l' ∈ nll →
        cnt.length = nll.length →
        ∃ k : Nat, lastIdxOf nll l' = some k ∧
          ∃ f : InputFeatures,
            encodeExample nll maxSeqLength tok cnt ex =
              some (f, cnt.set k (cnt.getD k 0 + 1)) ∧
            f.label_ids = (List.replicate maxSeqLength (-1 : Int)).set (i + 1) (k : Int) ∧
            f.label_ids.getD (i + 1) (-1) = (k : Int) ∧
            (∀ q : Nat, q ≠ i + 1 → f.label_ids.getD q (-1) = -1)) := by
  refine ⟨?_, ?_, ?_⟩
  · intro hch hmem hlen hcnt
    obtain ⟨k, hk, _, happ⟩ := applyAnnot_success s hch hmem hlen hcnt
    exact ⟨k, hk, happ⟩
  · intro hch
    unfold applyAnnot
    dsimp only
    rw [hch]
  · intro hlab hmax hpos hch hmem hcnt
    obtain ⟨k, hk, hklt, henc⟩ := encodeExample_single hlab hmax hpos hch hmem hcnt
    have hilt := checkAnnot_some_lt hch
    have htlen := buildTokens_length_le ex.text hmax
    have hi1 : i + 1 < maxSeqLength := by omega
    refine ⟨k, hk, _, henc, rfl, ?_, ?_⟩
    · rw [List.getD_eq_getD_get?,
        List.get?_set_eq_of_lt _ (by simp only [List.length_replicate]; omega)]
      rfl
    · intro q hq
      rw [List.getD_eq_getD_get?, List.get?_set_ne _ _ (fun he => hq he.symm),
        List.get?_eq_getElem?, List.getElem?_replicate]
      split_ifs <;> rfl

/-- Witness for C1: a matching annotation on a concrete vocabulary and
token sequence records index 0 at position 1 and bumps its count; a
mismatching/out-of-range annotation leaves the state unchanged; a one-
annotation example produces exactly one non-default `label_ids` entry. -/
theorem C1_annot_roundtrip_witness :
    (∃ k : Nat,
      lastIdxOf [['b', '\t', 'x'], ['b', '\t', 'y']] ['b', '\t', 'x'] = some k ∧
      applyAnnot [['b', '\t', 'x'], ['b', '\t', 'y']]
          [clsToken, ['b'], sepToken] ⟨[-1, -1, -1], [0, 0]⟩ (0, ['b', 'x']) =
        some ⟨([-1, -1, -1] : List Int).set 1 (k : Int),
              ([0, 0] : List Nat).set k (([0, 0] : List Nat).getD k 0 + 1)⟩)
    ∧ applyAnnot [['b', '\t', 'x'], ['b', '\t', 'y']]
        [clsToken, ['b'], sepToken] ⟨[-1, -1, -1], [0, 0]⟩ (5, ['b', 'x']) =
      some ⟨[-1, -1, -1], [0, 0]⟩
    ∧ (∃ k : Nat,
        lastIdxOf [['b', '\t', 'x'], ['b', '\t', 'y']] ['b', '\t', 'x'] = some k ∧
        ∃ f : InputFeatures,
          encodeExample [['b', '\t', 'x'], ['b', '\t', 'y']] 4 (fun _ => 0) [0, 0]
              ⟨[['b']], [(0, ['b', 'x'])], 0, ['b']⟩ =
            some (f, ([0, 0] : List Nat).set k (([0, 0] : List Nat).getD k 0 + 1)) ∧
          f.label_ids = (List.replicate 4 (-1 : Int)).set 1 (k : Int) ∧
          f.label_ids.getD 1 (-1) = (k : Int) ∧
          (∀ q : Nat, q ≠ 1 → f.label_ids.getD q (-1) = -1)) := by
  refine ⟨?_, ?_, ?_⟩
  · exact (C1_annot_roundtrip [['b', '\t', 'x'], ['b', '\t', 'y']]
      [clsToken, ['b'], sepToken] ⟨[-1, -1, -1], [0, 0]⟩ 0 ['b', 'x'] ['b', '\t', 'x']
      4 (fun _ => 0) [0, 0] ⟨[['b']], [(0, ['b', 'x'])], 0, ['b']⟩).1
      (by decide) (by decide) (by decide) (by decide)
  · exact (C1_annot_roundtrip [['b', '\t', 'x'], ['b', '\t', 'y']]
      [clsToken, ['b'], sepToken] ⟨[-1, -1, -1], [0, 0]⟩ 5 ['b', 'x'] ['b', '\t', 'x']
      4 (fun _ => 0) [0, 0] ⟨[['b']], [(0, ['b', 'x'])], 0, ['b']⟩).2.1
      (by decide)
  · exact (C1_annot_roundtrip [['b', '\t', 'x'], ['b', '\t', 'y']]
      [clsToken, ['b'], sepToken] ⟨[-1, -1, -1], [0, 0]⟩ 0 ['b', 'x'] ['b', '\t', 'x']
      4 (fun _ => 0) [0, 0] ⟨[['b']], [(0, ['b', 'x'])], 0, ['b']⟩).2.2
      rfl (by decide) (by decide) (by decide) (by decide) (by decide)

/-- **C2**: every example accepted by the feature encoder — whatever its
original text length relative to `max_seq_length - 2` — produces a feature
with `len(input_ids) = len(input_mask) = len(label_ids) = max_seq_length`,
built by truncating to `max_seq_length - 2` tokens, wrapping with the
`[CLS]`/`[SEP]` markers, and right-padding with zeros. -/
theorem C2_feature_lengths
    (nll : List Label) (maxSeqLength : Nat) (tok : Token → Int) (cnt : List Nat)
    (ex : InputExample) (st : AnnState)
    (hmax : 2 ≤ maxSeqLength) (hpos : ex.position + 1 < maxSeqLength)
    (hann : processAnnots nll (buildTokens maxSeqLength ex.text)
        ⟨List.replicate maxSeqLength (-1), cnt⟩ ex.label = some st) :
    ∃ f cnt', encodeExample nll maxSeqLength tok cnt ex = some (f, cnt') ∧
      f.input_ids.length = maxSeqLength ∧
      f.input_mask.length = maxSeqLength ∧
      f.label_ids.length = maxSeqLength ∧
      f.input_ids = pyPad maxSeqLength ((buildTokens maxSeqLength ex.text).map tok) := by
  have htlen := buildTokens_length_le ex.text hmax
  have hids := (processAnnots_lengths hann).1
  have hlen1 : (pyPad maxSeqLength ((buildTokens maxSeqLength ex.text).map tok)).length
      = maxSeqLength := pyPad_length (by simpa using htlen)
  have hlen2 : (pyPad maxSeqLength
      (List.replicate (buildTokens maxSeqLength ex.text).length 1)).length
      = maxSeqLength := pyPad_length (by simpa using htlen)
  have hlen3 : st.labelIds.length = maxSeqLength := by simpa using hids
  refine ⟨⟨pyPad maxSeqLength ((buildTokens maxSeqLength ex.text).map tok),
           pyPad maxSeqLength (List.replicate (buildTokens maxSeqLength ex.text).length 1),
           st.labelIds, ex.position + 1, ex.char⟩, st.labelCount,
          ?_, hlen1, hlen2, hlen3, rfl⟩
  unfold encodeExample
  rw [hann]
  dsimp only
  rw [if_pos ⟨hlen1, hlen2, hlen3⟩, if_pos hpos]

/-- Witness for C2, exercising the truncation branch: a 5-token text with
`max_seq_length = 4` (so the text is longer than `max_seq_length - 2`). -/
theorem C2_feature_lengths_witness :
    ∃ f cnt', encodeExample [['b', '\t', 'x']] 4 (fun _ => 0) [0]
        ⟨[['a'], ['b'], ['c'], ['d'], ['e']], [], 1, ['a']⟩ = some (f, cnt') ∧
      f.input_ids.length = 4 ∧
      f.input_mask.length = 4 ∧
      f.label_ids.length = 4 ∧
      f.input_ids = pyPad 4 ((buildTokens 4 [['a'], ['b'], ['c'], ['d'], ['e']]).map
        (fun _ => 0)) :=
  C2_feature_lengths [['b', '\t', 'x']] 4 (fun _ => 0) [0]
    ⟨[['a'], ['b'], ['c'], ['d'], ['e']], [], 1, ['a']⟩ ⟨List.replicate 4 (-1), [0]⟩
    (by decide) (by decide) (by decide)

/-- **C9**: the feature encoder sets `label_pos = example.position + 1` and
the `assert label_pos < max_seq_length` of line 214 makes every encoding
with `label_pos ≥ max_seq_length` fail, so every successfully encoded
example satisfies `label_pos < max_seq_length`. -/
theorem C9_label_pos
    (nll : List Label) (maxSeqLength : Nat) (tok : Token → Int) (cnt : List Nat)
    (ex : InputExample) :
    (∀ f cnt', encodeExample nll maxSeqLength tok cnt ex = some (f, cnt') →
      f.label_pos = ex.position + 1 ∧ f.label_pos < maxSeqLength)
    ∧ (maxSeqLength ≤ ex.position + 1 →
        encodeExample nll maxSeqLength tok cnt ex = none) := by
  constructor
  · intro f cnt' h
    unfold encodeExample at h
    cases hp : processAnnots nll (buildTokens maxSeqLength ex.text)
        ⟨List.replicate maxSeqLength (-1), cnt⟩ ex.label with
    | none => rw [hp] at h; cases h
    | some st =>
      rw [hp] at h
      dsimp only at h
      by_cases h1 : (pyPad maxSeqLength ((buildTokens maxSeqLength ex.text).map tok)).length
            = maxSeqLength
          ∧ (pyPad maxSeqLength
              (List.replicate (buildTokens maxSeqLength ex.text).length 1)).length
            = maxSeqLength
          ∧ st.labelIds.length = maxSeqLength
      · rw [if_pos h1] at h
        by_cases h2 : ex.position + 1 < maxSeqLength
        · rw [if_pos h2] at h
          simp only [Option.some.injEq, Prod.mk.injEq] at h
          rw [← h.1]
          exact ⟨rfl, h2⟩
        · rw [if_neg h2] at h; cases h
      · rw [if_neg h1] at h; cases h
  · intro hge
    unfold encodeExample
    cases hp : processAnnots nll (buildTokens maxSeqLength ex.text)
        ⟨List.replicate maxSeqLength (-1), cnt⟩ ex.label with
    | none => rfl
    | some st =>
      dsimp only
      by_cases h1 : (pyPad maxSeqLength ((buildTokens maxSeqLength ex.text).map tok)).length
            = maxSeqLength
          ∧ (pyPad maxSeqLength
              (List.replicate (buildTokens maxSeqLength ex.text).length 1)).length
            = maxSeqLength
          ∧ st.labelIds.length = maxSeqLength
      · rw [if_pos h1, if_neg (by omega)]
      · rw [if_neg h1]

/-- Witness for C9: a successfully encoded example has
`label_pos = position + 1 < max_seq_length`, and an example whose
`position + 1` reaches `max_seq_length` is rejected. -/
theorem C9_label_pos_witness :
    ((⟨[0, 0, 0], [1, 1, 1], [-1, -1, -1], 1, ['a']⟩ : InputFeatures).label_pos = 0 + 1
      ∧ (⟨[0, 0, 0], [1, 1, 1], [-1, -1, -1], 1, ['a']⟩ : InputFeatures).label_pos < 3)
    ∧ encodeExample [['b', '\t', 'x']] 2 (fun _ => 0) [0]
        ⟨[['a']], [], 1, ['a']⟩ = none := by
  constructor
  · exact (C9_label_pos [['b', '\t', 'x']] 3 (fun _ => 0) [0]
      ⟨[['a']], [], 0, ['a']⟩).1
      ⟨[0, 0, 0], [1, 1, 1], [-1, -1, -1], 1, ['a']⟩ [0] (by decide)
  · exact (C9_label_pos [['b', '\t', 'x']] 2 (fun _ => 0) [0]
      ⟨[['a']], [], 1, ['a']⟩).2 (by decide)

/-- **C10** (implicit): an annotation whose position is out of range of the
marker-wrapped token sequence (`position + 1 ≥ len(tokens)`, e.g. after
truncation dropped the annotated token) is recovered exactly like a
character mismatch: the `IndexError` is caught, the annotation is skipped,
no label index is recorded, no count is incremented, and encoding of the
example continues. -/
theorem C10_out_of_range_annot
    (nll : List Label) (tokens : List Token) (s : AnnState) (i : Nat) (l : Label)
    (maxSeqLength : Nat) (tok : Token → Int) (cnt : List Nat) (ex : InputExample) :
    (tokens.get? (i + 1) = none → applyAnnot nll tokens s (i, l) = some s)
    ∧ (ex.label = [(i, l)] → 2 ≤ maxSeqLength → ex.position + 1 < maxSeqLength →
        (buildTokens maxSeqLength ex.text).length ≤ i + 1 →
        ∃ f : InputFeatures,
          encodeExample nll maxSeqLength tok cnt ex = some (f, cnt) ∧
          f.label_ids = List.replicate maxSeqLength (-1 : Int)) := by
  constructor
  · intro hg
    unfold applyAnnot
    dsimp only
    rw [checkAnnot_none_of_get?_none l hg]
  · intro hlab hmax hpos hge
    have htlen := buildTokens_length_le ex.text hmax
    have hskip : applyAnnot nll (buildTokens maxSeqLength ex.text)
        ⟨List.replicate maxSeqLength (-1), cnt⟩ (i, l) =
        some ⟨List.replicate maxSeqLength (-1), cnt⟩ := by
      unfold applyAnnot
      dsimp only
      rw [checkAnnot_none_of_get?_none l (List.get?_eq_none.mpr hge)]
    refine ⟨⟨pyPad maxSeqLength ((buildTokens maxSeqLength ex.text).map tok),
             pyPad maxSeqLength (List.replicate (buildTokens maxSeqLength ex.text).length 1),
             List.replicate maxSeqLength (-1), ex.position + 1, ex.char⟩, ?_, rfl⟩
    unfold encodeExample
    rw [hlab]
    unfold processAnnots
    rw [hskip]
    unfold processAnnots
    dsimp only
    rw [if_pos ⟨pyPad_length (by simpa using htlen), pyPad_length (by simpa using htlen),
      by simp only [List.length_replicate]⟩, if_pos hpos]

/-- Witness for C10: with `max_seq_length = 4` a 5-token text is truncated
to 2 tokens, so an annotation at position 3 indexes past the wrapped
sequence; the example still encodes, with all-default `label_ids` and
unchanged counts. -/
theorem C10_out_of_range_annot_witness :
    (applyAnnot [['b', '\t', 'x']] [clsToken, ['b'], sepToken]
        ⟨[-1, -1, -1], [0]⟩ (5, ['b', 'x']) = some ⟨[-1, -1, -1], [0]⟩)
    ∧ (∃ f : InputFeatures,
        encodeExample [['b', '\t', 'x']] 4 (fun _ => 0) [0]
            ⟨[['a'], ['b'], ['c'], ['d'], ['e']], [(3, ['d', 'x'])], 1, ['a']⟩ =
          some (f, [0]) ∧
        f.label_ids = List.replicate 4 (-1 : Int)) := by
  constructor
  · exact (C10_out_of_range_annot [['b', '\t', 'x']] [clsToken, ['b'], sepToken]
      ⟨[-1, -1, -1], [0]⟩ 5 ['b', 'x'] 4 (fun _ => 0) [0]
      ⟨[['a'], ['b'], ['c'], ['d'], ['e']], [(3, ['d', 'x'])], 1, ['a']⟩).1 (by decide)
  · exact (C10_out_of_range_annot [['b', '\t', 'x']] [clsToken, ['b'], sepToken]
      ⟨[-1, -1, -1], [0]⟩ 3 ['d', 'x'] 4 (fun _ => 0) [0]
      ⟨[['a'], ['b'], ['c'], ['d'], ['e']], [(3, ['d', 'x'])], 1, ['a']⟩).2
      rfl (by decide) (by decide) (by decide)

lemma candMask_zero {nll : List Label} {i j : Nat} (hnd : nll.Nodup)
    (hj : j < nll.length)
    (hshare : splitChar (nll.getD j []) = splitChar (nll.getD i [])) :
    candMask nll i j = 0 := by
  have hg : nll.getD j [] = nll.get ⟨j, hj⟩ := List.getD_eq_get _ _ hj
  have hmem : nll.getD j [] ∈ nll := by rw [hg]; exact nll.get_mem _ _
  have hlast : lastIdxOf nll (nll.getD j []) = some j := by
    rw [hg]; exact lastIdxOf_nodup hnd hj
  unfold candMask
  rw [if_pos (List.any_eq_true.mpr ⟨nll.getD j [], hmem, by
    rw [Bool.and_eq_true, decide_eq_true_eq, decide_eq_true_eq]
    exact ⟨hshare, hlast⟩⟩)]

lemma candMask_one {nll : List Label} {i j : Nat} (hj : j < nll.length)
    (hdiff : splitChar (nll.getD j []) ≠ splitChar (nll.getD i [])) :
    candMask nll i j = 1 := by
  unfold candMask
  rw [if_neg]
  intro ha
  obtain ⟨lab, hmem, hprop⟩ := List.any_eq_true.mp ha
  rw [Bool.and_eq_true, decide_eq_true_eq, decide_eq_true_eq] at hprop
  have hq : nll.get? j = some lab := lastIdxOf_get? hprop.2
  have hg : nll.get? j = some (nll.get ⟨j, hj⟩) := List.get?_eq_get hj
  rw [hg] at hq
  have hlab : lab = nll.getD j [] := by
    rw [List.getD_eq_get _ _ hj]
    exact (Option.some.injEq _ _ ▸ hq).symm
  rw [hlab] at hprop
  exact hdiff hprop.1

/-- **C3**: the candidate mask built by the feature encoder (lines 133-140)
is, over the normalised (duplicate-free) label vocabulary, determined by
character groups: for label indices `i` and `j` the entry is 0 in both
directions when labels `i` and `j` share their character component, and 1
in both directions when the characters differ. -/
theorem C3_candidate_mask (ll nll : List Label) (i j : Nat)
    (_hn : normalizeLabelList ll = some nll) (hnd : nll.Nodup)
    (hi : i < nll.length) (hj : j < nll.length) :
    (splitChar (nll.getD i []) = splitChar (nll.getD j []) →
      candMask nll i j = 0 ∧ candMask nll j i = 0)
    ∧ (splitChar (nll.getD i []) ≠ splitChar (nll.getD j []) →
      candMask nll i j = 1 ∧ candMask nll j i = 1) := by
  constructor
  · intro hshare
    exact ⟨candMask_zero hnd hj hshare.symm, candMask_zero hnd hi hshare⟩
  · intro hdiff
    exact ⟨candMask_one hj (fun e => hdiff e.symm), candMask_one hi hdiff⟩

/-- Witness for C3: the 2-entry vocabulary whose labels share the
character `弹` has an all-zero 2×2 mask, and a vocabulary with two distinct
characters has 1 in both off-diagonal entries. -/
theorem C3_candidate_mask_witness :
    (candMask [['弹', '\t', 'd', 'a', 'n', '4'], ['弹', '\t', 't', 'a', 'n', '2']] 0 1 = 0
      ∧ candMask [['弹', '\t', 'd', 'a', 'n', '4'], ['弹', '\t', 't', 'a', 'n', '2']] 1 0 = 0)
    ∧ (candMask [['弹', '\t', 'd', 'a', 'n', '4'], ['弹', '\t', 't', 'a', 'n', '2']] 0 0 = 0
      ∧ candMask [['弹', '\t', 'd', 'a', 'n', '4'], ['弹', '\t', 't', 'a', 'n', '2']] 0 0 = 0)
    ∧ (candMask [['弹', '\t', 'd', 'a', 'n', '4'], ['弹', '\t', 't', 'a', 'n', '2']] 1 1 = 0
      ∧ candMask [['弹', '\t', 'd', 'a', 'n', '4'], ['弹', '\t', 't', 'a', 'n', '2']] 1 1 = 0)
    ∧ (candMask [['a', '\t', 'x'], ['b', '\t', 'y']] 0 1 = 1
      ∧ candMask [['a', '\t', 'x'], ['b', '\t', 'y']] 1 0 = 1) := by
  refine ⟨?_, ?_, ?_, ?_⟩
  · exact (C3_candidate_mask
      [['弹', 'd', 'a', 'n', '4'], ['弹', 't', 'a', 'n', '2']]
      [['弹', '\t', 'd', 'a', 'n', '4'], ['弹', '\t', 't', 'a', 'n', '2']] 0 1
      (by decide) (by decide) (by decide) (by decide)).1 (by decide)
  · exact (C3_candidate_mask
      [['弹', 'd', 'a', 'n', '4'], ['弹', 't', 'a', 'n', '2']]
      [['弹', '\t', 'd', 'a', 'n', '4'], ['弹', '\t', 't', 'a', 'n', '2']] 0 0
      (by decide) (by decide) (by decide) (by decide)).1 (by decide)
  · exact (C3_candidate_mask
      [['弹', 'd', 'a', 'n', '4'], ['弹', 't', 'a', 'n', '2']]
      [['弹', '\t', 'd', 'a', 'n', '4'], ['弹', '\t', 't', 'a', 'n', '2']] 1 1
      (by decide) (by decide) (by decide) (by decide)).1 (by decide)
  · exact (C3_candidate_mask [['a', 'x'], ['b', 'y']]
      [['a', '\t', 'x'], ['b', '\t', 'y']] 0 1
      (by decide) (by decide) (by decide) (by decide)).2 (by decide)

/-- **C4**: the class-weight vector (line 240) assigns each label the
weight `max_class_count / (class_count + 100)`; the label with the highest
count gets `maxCount / (maxCount + 100)`, a zero-occurrence label gets
`maxCount / 100`, and for `maxCount > 0` the zero-occurrence weight is
strictly larger than any positive-count weight. -/
theorem C4_class_weight (cnt : List Nat) (i : Nat) (hi : i < cnt.length) :
    (classWeight cnt).get? i = some ((maxList cnt : ℚ) / ((cnt.getD i 0 : ℚ) + 100))
    ∧ (cnt.getD i 0 = maxList cnt →
        (classWeight cnt).get? i = some ((maxList cnt : ℚ) / ((maxList cnt : ℚ) + 100)))
    ∧ (cnt.getD i 0 = 0 →
        (classWeight cnt).get? i = some ((maxList cnt : ℚ) / 100))
    ∧ (0 < maxList cnt → cnt.getD i 0 = 0 →
        ∀ j, j < cnt.length → 0 < cnt.getD j 0 →
        ∀ wi wj : ℚ, (classWeight cnt).get? i = some wi →
          (classWeight cnt).get? j = some wj → wj < wi) := by
  have base : ∀ m, m < cnt.length →
      (classWeight cnt).get? m = some ((maxList cnt : ℚ) / ((cnt.getD m 0 : ℚ) + 100)) := by
    intro m hm
    unfold classWeight
    rw [List.get?_map, List.get?_eq_get hm, Option.map_some', List.getD_eq_get _ _ hm]
  refine ⟨base i hi, ?_, ?_, ?_⟩
  · intro hc
    rw [base i hi, hc]
  · intro hc
    rw [base i hi, hc]
    norm_num
  · intro hmax hzero j hj hcj wi wj hwi hwj
    rw [base i hi, hzero] at hwi
    rw [base j hj] at hwj
    have hwi2 : wi = (maxList cnt : ℚ) / 100 := by
      have := Option.some.injEq _ _ ▸ hwi
      rw [← this]
      norm_num
    have hwj2 : wj = (maxList cnt : ℚ) / ((cnt.getD j 0 : ℚ) + 100) :=
      (Option.some.injEq _ _ ▸ hwj).symm
    rw [hwi2, hwj2]
    have h1 : (0 : ℚ) < (maxList cnt : ℚ) := by exact_mod_cast hmax
    have h2 : (0 : ℚ) < 100 := by norm_num
    have h3 : (100 : ℚ) < (cnt.getD j 0 : ℚ) + 100 := by
      have : (0 : ℚ) < (cnt.getD j 0 : ℚ) := by exact_mod_cast hcj
      linarith
    exact div_lt_div_of_pos_left h1 h2 h3

/-- Witness for C4 at the concrete counts `[3, 0, 1]`: the maximal-count
label weighs `3/103`, the zero-count label `3/100`, and the latter beats
the weight `3/101` of the count-1 label. -/
theorem C4_class_weight_witness :
    (classWeight [3, 0, 1]).get? 0 =
      some ((maxList [3, 0, 1] : ℚ) / ((maxList [3, 0, 1] : ℚ) + 100))
    ∧ (classWeight [3, 0, 1]).get? 1 = some ((maxList [3, 0, 1] : ℚ) / 100)
    ∧ ((3 : ℚ) / 101 < (3 : ℚ) / 100) := by
  refine ⟨?_, ?_, ?_⟩
  · exact (C4_class_weight [3, 0, 1] 0 (by decide)).2.1 (by decide)
  · exact (C4_class_weight [3, 0, 1] 1 (by decide)).2.2.1 (by decide)
  · exact (C4_class_weight [3, 0, 1] 1 (by decide)).2.2.2 (by decide) (by decide)
      2 (by decide) (by decide) ((3 : ℚ) / 100) ((3 : ℚ) / 101)
      (by norm_num [classWeight, maxList]) (by norm_num [classWeight, maxList])

/-- Counterexample to **C5** as stated: the learning-rate warmup
recomputation sits INSIDE the `if args.fp16:` branch (lines 616-623) — the
code comment says "if args.fp16 is False, BertAdam is used that handles
this automatically".  So outside the reduced-precision branch the loop
leaves the optimizer learning rate untouched at an update: here with
`fp16 = false` an update fires (`globalStep` becomes 1) but `lrGroup`
stays 1, whereas the claimed recomputation
`learning_rate * warmup_linear(global_step / total_steps, warmup)`
evaluates to 0. -/
theorem C5_counterexample :
    (trainStep ⟨false, 1, 1, 1/10, 10⟩ ⟨0, 1, 0, 0, 0, []⟩ 0 1).globalStep = 1
    ∧ (trainStep ⟨false, 1, 1, 1/10, 10⟩ ⟨0, 1, 0, 0, 0, []⟩ 0 1).lrGroup = 1
    ∧ (1 : ℚ) * warmup_linear ((0 : ℚ) / 10) (1/10) = 0
    ∧ (1 : ℚ) ≠ 0 := by
  refine ⟨rfl, rfl, ?_, ?_⟩
  · norm_num [warmup_linear]
  · norm_num

/-- **C5** (amended): the per-batch loss is divided by the accumulation
factor when it exceeds 1 before backpropagation; the optimizer step,
gradient reset and global-step increment happen only on every
`accumulation_factor`-th step; and at such an update the learning rate is
recomputed as `learning_rate * warmup_linear(global_step / total_steps,
warmup)` INSIDE the reduced-precision (fp16) branch, while outside it the
loop leaves the rate to the optimizer's internal warmup schedule
(`BertAdam`, lines 548-551). -/
theorem C5_training_step_amended (cfg : TrainConfig) (s : TrainState) (step : Nat) (loss : ℚ) :
    ((trainStep cfg s step loss).trLoss =
      s.trLoss + (if 1 < cfg.accumSteps then loss / (cfg.accumSteps : ℚ) else loss))
    ∧ ((step + 1) % cfg.accumSteps ≠ 0 →
        trainStep cfg s step loss =
          { s with
            grad := s.grad + (if 1 < cfg.accumSteps then loss / (cfg.accumSteps : ℚ) else loss),
            trLoss := s.trLoss + (if 1 < cfg.accumSteps then loss / (cfg.accumSteps : ℚ) else loss),
            nbTrSteps := s.nbTrSteps + 1 })
    ∧ ((step + 1) % cfg.accumSteps = 0 →
        (trainStep cfg s step loss).globalStep = s.globalStep + 1
        ∧ (trainStep cfg s step loss).grad = 0
        ∧ (trainStep cfg s step loss).lrGroup =
            (if cfg.fp16 then
              cfg.learningRate *
                warmup_linear ((s.globalStep : ℚ) / cfg.totalSteps) cfg.warmupProportion
             else s.lrGroup)
        ∧ (trainStep cfg s step loss).updates =
            s.updates ++
              [(s.grad + (if 1 < cfg.accumSteps then loss / (cfg.accumSteps : ℚ) else loss),
                if cfg.fp16 then
                  cfg.learningRate *
                    warmup_linear ((s.globalStep : ℚ) / cfg.totalSteps) cfg.warmupProportion
                else s.lrGroup)]) := by
  refine ⟨?_, ?_, ?_⟩
  · unfold trainStep
    dsimp only
    by_cases hb : (step + 1) % cfg.accumSteps = 0
    · rw [if_pos hb]
      by_cases hf : cfg.fp16
      · rw [if_pos hf]
      · rw [if_neg hf]
    · rw [if_neg hb]
  · intro hb
    unfold trainStep
    dsimp only
    rw [if_neg hb]
  · intro hb
    unfold trainStep
    dsimp only
    rw [if_pos hb]
    by_cases hf : cfg.fp16
    · simp only [if_pos hf]
      refine ⟨?_, ?_, ?_, ?_⟩ <;> dsimp only
    · simp only [if_neg hf]
      refine ⟨?_, ?_, ?_, ?_⟩ <;> dsimp only

/-- Witness for the amended C5 on the spec scenario (accumulation factor 2,
losses scaled to 1/2): step 0 is a pure accumulation step, step 1 fires the
update with unchanged learning rate outside fp16; with fp16 on, the update
recomputes the rate. -/
theorem C5_training_step_amended_witness :
    (trainStep ⟨false, 2, 1, 1/10, 10⟩ ⟨0, 1, 0, 0, 0, []⟩ 0 1 =
      { globalStep := 0, lrGroup := 1, grad := 0 + (1 : ℚ)/2, trLoss := 0 + (1 : ℚ)/2,
        nbTrSteps := 0 + 1, updates := [] })
    ∧ ((trainStep ⟨false, 2, 1, 1/10, 10⟩ ⟨0, 1, 1/2, 1/2, 1, []⟩ 1 1).globalStep = 0 + 1
      ∧ (trainStep ⟨false, 2, 1, 1/10, 10⟩ ⟨0, 1, 1/2, 1/2, 1, []⟩ 1 1).grad = 0
      ∧ (trainStep ⟨false, 2, 1, 1/10, 10⟩ ⟨0, 1, 1/2, 1/2, 1, []⟩ 1 1).lrGroup = 1
      ∧ (trainStep ⟨false, 2, 1, 1/10, 10⟩ ⟨0, 1, 1/2, 1/2, 1, []⟩ 1 1).updates =
          [] ++ [((1 : ℚ)/2 + (1 : ℚ)/2, 1)])
    ∧ (trainStep ⟨true, 2, 1, 1/10, 10⟩ ⟨0, 1, 1/2, 1/2, 1, []⟩ 1 1).lrGroup =
        (1 : ℚ) * warmup_linear ((0 : ℚ) / 10) (1/10) := by
  refine ⟨?_, ?_, ?_⟩
  · have h := (C5_training_step_amended ⟨false, 2, 1, 1/10, 10⟩ ⟨0, 1, 0, 0, 0, []⟩ 0 1).2.1
      (by decide)
    simpa using h
  · have h := (C5_training_step_amended ⟨false, 2, 1, 1/10, 10⟩ ⟨0, 1, 1/2, 1/2, 1, []⟩ 1 1).2.2
      (by decide)
    simpa using h
  · have h := ((C5_training_step_amended ⟨true, 2, 1, 1/10, 10⟩ ⟨0, 1, 1/2, 1/2, 1, []⟩ 1 1).2.2
      (by decide)).2.2.1
    simpa using h

/-- Counterexample to **C6** as stated: the "left" pattern of heads 0-1 is
`torch.tril(torch.ones(...))` (line 146), which keeps the main diagonal, so
it is lower-triangular but NOT strictly lower-triangular: at head 0 the
diagonal entry (0, 0) is 1, while a strictly-lower-triangular pattern
(entry 1 exactly when the column index is below the row index) has 0
there. -/
theorem C6_counterexample :
    hybridMask 0 0 0 = 1
    ∧ ¬ hybridMask 0 0 0 = (if (0 : Nat) < (0 : Nat) then 1 else 0) := by
  decide

/-- **C6** (amended): within the 12-head layout of shape (heads, seq, seq),
heads 0-1 hold the lower-triangular-including-diagonal "left" pattern
(entry 1 iff `j ≤ i`), heads 2-3 the upper-triangular-including-diagonal
"right" pattern (entry 1 iff `i ≤ j`), heads 4-5 the band-limited local
window allowing positions within distance 1 of the diagonal, and the
remaining heads stay all-ones; each pattern is a fixed 2-head slice. -/
theorem C6_hybrid_attention_amended (h i j : Nat) :
    (h < 2 → hybridMask h i j = if j ≤ i then 1 else 0)
    ∧ (2 ≤ h → h < 4 → hybridMask h i j = if i ≤ j then 1 else 0)
    ∧ (4 ≤ h → h < 6 → hybridMask h i j = if i ≤ j + 1 ∧ j ≤ i + 1 then 1 else 0)
    ∧ (6 ≤ h → hybridMask h i j = 1) := by
  unfold hybridMask torchTril torchTriu onesMat
  dsimp only
  refine ⟨fun h1 => ?_, fun h2 h3 => ?_, fun h4 h5 => ?_, fun h6 => ?_⟩
  · rw [if_pos h1]
    split_ifs <;> omega
  · rw [if_neg (by omega), if_pos h3]
    split_ifs <;> omega
  · rw [if_neg (by omega), if_neg (by omega), if_pos h5]
    split_ifs <;> omega
  · rw [if_neg (by omega), if_neg (by omega), if_neg (by omega)]

/-- Witness for the amended C6 at representative entries of each head
group: (1,0) under head 0, (0,1) under head 2, (2,3) under head 4, and an
arbitrary entry under head 7. -/
theorem C6_hybrid_attention_amended_witness :
    (hybridMask 0 1 0 = if (0 : Nat) ≤ 1 then 1 else 0)
    ∧ (hybridMask 2 0 1 = if (0 : Nat) ≤ 1 then 1 else 0)
    ∧ (hybridMask 4 2 3 = if (2 : Nat) ≤ 3 + 1 ∧ (3 : Nat) ≤ 2 + 1 then 1 else 0)
    ∧ hybridMask 7 5 0 = 1 :=
  ⟨(C6_hybrid_attention_amended 0 1 0).1 (by decide),
   (C6_hybrid_attention_amended 2 0 1).2.1 (by decide) (by decide),
   (C6_hybrid_attention_amended 4 2 3).2.2.1 (by decide) (by decide),
   (C6_hybrid_attention_amended 7 5 0).2.2.2 (by decide)⟩

/-- Counterexample to **C7** as stated: under `--eval_every_epoch` the
second `convert_examples_to_features` call (lines 562-565) REBINDS
`masks, weight, hybrid_mask` to values computed from the EVAL examples,
and `ClassWeight` depends on the per-set occurrence counts, so the value
in effect after encoding is not the one computed from the train set: here
the train set yields counts `[1, 0]` but the flow ends with the eval-set
weights `classWeight [0, 0]`. -/
theorem C7_counterexample :
    mainEncodingFlow [['a', 'x'], ['a', 'y']] 4 (fun _ => 0)
        [⟨[['a']], [(0, ['a', 'x'])], 0, ['a']⟩] [] true =
      some ([⟨[0, 0, 0, 0], [1, 1, 1, 0], [-1, 0, -1, -1], 1, ['a']⟩],
            classWeight [0, 0])
    ∧ trainWeightOf [['a', 'x'], ['a', 'y']] 4 (fun _ => 0)
        [⟨[['a']], [(0, ['a', 'x'])], 0, ['a']⟩] = some (classWeight [1, 0])
    ∧ classWeight [0, 0] ≠ classWeight [1, 0] := by
  refine ⟨rfl, rfl, ?_⟩
  norm_num [classWeight, maxList]

lemma convert_components {ll : List Label} {maxSeqLength : Nat} {tok : Token → Int}
    {exs : List InputExample} {r : ConvertResult}
    (h : convert_examples_to_features ll maxSeqLength tok exs = some r) :
    ∃ nll, normalizeLabelList ll = some nll ∧
      r.masks = candMask nll ∧ r.attention_mask = hybridMask := by
  unfold convert_examples_to_features at h
  cases hn : normalizeLabelList ll with
  | none => rw [hn] at h; cases h
  | some nll =>
    rw [hn] at h
    dsimp only at h
    cases he : encodeAll nll maxSeqLength tok (List.replicate nll.length 0) exs with
    | none => rw [he] at h; cases h
    | some p =>
      rw [he] at h
      obtain ⟨fs, cnt⟩ := p
      dsimp only at h
      cases h
      exact ⟨nll, rfl, rfl, rfl⟩

/-- **C7** (amended): `CandidateMask` and `HybridAttentionMask` depend only
on the label vocabulary and `max_seq_length`, so the two
`convert_examples_to_features` calls agree on them and sharing is sound;
but under `--eval_every_epoch` the variables are rebound by the second
(eval) call, and the `ClassWeight` in effect afterwards is the one derived
from the EVAL set's occurrence counts, not the train set's. -/
theorem C7_masks_shared_weight_rebound
    (ll : List Label) (maxSeqLength : Nat) (tok : Token → Int)
    (ex1 ex2 : List InputExample) (r1 r2 : ConvertResult)
    (h1 : convert_examples_to_features ll maxSeqLength tok ex1 = some r1)
    (h2 : convert_examples_to_features ll maxSeqLength tok ex2 = some r2) :
    (r1.masks = r2.masks ∧ r1.attention_mask = r2.attention_mask)
    ∧ (∀ tf w, mainEncodingFlow ll maxSeqLength tok ex1 ex2 true = some (tf, w) →
        tf = r1.features ∧ w = r2.weight) := by
  obtain ⟨nll1, hn1, hm1, ha1⟩ := convert_components h1
  obtain ⟨nll2, hn2, hm2, ha2⟩ := convert_components h2
  have hnll : nll1 = nll2 := by
    rw [hn1] at hn2
    exact Option.some_injective _ hn2
  refine ⟨⟨by rw [hm1, hm2, hnll], by rw [ha1, ha2]⟩, ?_⟩
  intro tf w hflow
  unfold mainEncodingFlow at hflow
  rw [h1] at hflow
  dsimp only at hflow
  rw [h2] at hflow
  dsimp only at hflow
  simp only [if_true, Option.some.injEq, Prod.mk.injEq] at hflow
  exact ⟨hflow.1.symm, hflow.2.symm⟩

/-- Witness for the amended C7: train set with one matching annotation,
empty eval set; the two calls share identical masks, and the flow under
`eval_every_epoch` returns the eval-derived weights. -/
theorem C7_masks_shared_weight_rebound_witness :
    ((⟨[⟨[0, 0, 0, 0], [1, 1, 1, 0], [-1, 0, -1, -1], 1, ['a']⟩],
        candMask [['a', '\t', 'x'], ['a', '\t', 'y']], classWeight [1, 0],
        hybridMask⟩ : ConvertResult).masks =
      (⟨[], candMask [['a', '\t', 'x'], ['a', '\t', 'y']], classWeight [0, 0],
        hybridMask⟩ : ConvertResult).masks
      ∧ (⟨[⟨[0, 0, 0, 0], [1, 1, 1, 0], [-1, 0, -1, -1], 1, ['a']⟩],
          candMask [['a', '\t', 'x'], ['a', '\t', 'y']], classWeight [1, 0],
          hybridMask⟩ : ConvertResult).attention_mask =
        (⟨[], candMask [['a', '\t', 'x'], ['a', '\t', 'y']], classWeight [0, 0],
          hybridMask⟩ : ConvertResult).attention_mask)
    ∧ ([⟨[0, 0, 0, 0], [1, 1, 1, 0], [-1, 0, -1, -1], 1, ['a']⟩] =
        (⟨[⟨[0, 0, 0, 0], [1, 1, 1, 0], [-1, 0, -1, -1], 1, ['a']⟩],
          candMask [['a', '\t', 'x'], ['a', '\t', 'y']], classWeight [1, 0],
          hybridMask⟩ : ConvertResult).features
      ∧ classWeight [0, 0] =
        (⟨[], candMask [['a', '\t', 'x'], ['a', '\t', 'y']], classWeight [0, 0],
          hybridMask⟩ : ConvertResult).weight) := by
  have h := C7_masks_shared_weight_rebound [['a', 'x'], ['a', 'y']] 4 (fun _ => 0)
    [⟨[['a']], [(0, ['a', 'x'])], 0, ['a']⟩] []
    ⟨[⟨[0, 0, 0, 0], [1, 1, 1, 0], [-1, 0, -1, -1], 1, ['a']⟩],
      candMask [['a', '\t', 'x'], ['a', '\t', 'y']], classWeight [1, 0], hybridMask⟩
    ⟨[], candMask [['a', '\t', 'x'], ['a', '\t', 'y']], classWeight [0, 0], hybridMask⟩
    rfl rfl
  exact ⟨h.1, h.2 [⟨[0, 0, 0, 0], [1, 1, 1, 0], [-1, 0, -1, -1], 1, ['a']⟩]
    (classWeight [0, 0]) rfl⟩

/-! ### Checkpoint-resumption lemmas and C8 -/

lemma containsSub_self_append (w t : List Char) : containsSub w (w ++ t) = true := by
  unfold containsSub
  apply List.any_eq_true.mpr
  refine ⟨0, List.mem_range.mpr (by omega), ?_⟩
  rw [decide_eq_true_eq, List.drop_zero]
  induction w with
  | nil => rfl
  | cons c cs ih =>
    simp only [List.cons_append, List.length_cons, List.take_succ_cons, List.cons.injEq,
      true_and]
    exact ih


lemma append_cons_ne_self (w : List Char) (c : Char) (d : List Char) : w ++ c :: d ≠ w := by
  intro h
  have := congrArg List.length h
  simp only [List.length_append, List.length_cons] at this
  omega

lemma takeWhile_append_failhead {p : Char → Bool} {l1 : List Char} (l2 : List Char) (a : Char)
    (h1 : ∀ c ∈ l1, p c = true) (h2 : p a = false) :
    (l1 ++ a :: l2).takeWhile p = l1 := by
  induction l1 with
  | nil =>
    simp [List.takeWhile_cons, h2]
  | cons x xs ih =>
    have hx := h1 x (List.mem_cons_self _ _)
    simp [List.takeWhile_cons, hx]
    exact ih (fun c hc => h1 c (List.mem_cons_of_mem _ hc))

lemma lastSplitU_append (x d : List Char) (hd : ('_' : Char) ∉ d) :
    lastSplitU (x ++ '_' :: d) = d := by
  unfold lastSplitU
  rw [List.reverse_append, List.reverse_cons, List.append_assoc, List.singleton_append]
  rw [takeWhile_append_failhead x.reverse '_'
    (fun c hc => by
      rw [decide_eq_true_eq]
      intro he
      exact hd (he ▸ List.mem_reverse.mp hc))
    (by simp)]
  exact List.reverse_reverse d

lemma foldl_findMaxStep_skip {w : List Char} {extras : List (List Char)}
    (h : ∀ f ∈ extras, containsSub w f = false) (a : Option Int) :
    extras.foldl (findMaxStep w) a = a := by
  induction extras generalizing a with
  | nil => rfl
  | cons f fs ih =>
    have hf := h f (List.mem_cons_self _ _)
    simp only [List.foldl_cons]
    rw [show findMaxStep w a f = a from ?_]
    · exact ih (fun g hg => h g (List.mem_cons_of_mem _ hg)) a
    · unfold findMaxStep
      cases a with
      | none => rfl
      | some a' =>
        dsimp only
        rw [if_neg (by rw [hf]; simp)]

lemma foldl_findMaxStep_files {w : List Char} {ss : List (List Char)} {es : List Int}
    (hpar : List.Forall₂ (fun d e => pyInt d = some e ∧ ('_' : Char) ∉ d) ss es) :
    ∀ a : Int, (ss.map (fun d => w ++ '_' :: d)).foldl (findMaxStep w) (some a) =
      some (es.foldl max a) := by
  induction hpar with
  | nil => intro a; rfl
  | @cons d e ss' es' hde hrest ih =>
    intro a
    simp only [List.map_cons, List.foldl_cons]
    rw [show findMaxStep w (some a) (w ++ '_' :: d) = some (max a e) from ?_]
    · exact ih (max a e)
    · unfold findMaxStep
      dsimp only
      rw [if_pos (by
        rw [Bool.and_eq_true, decide_eq_true_eq]
        exact ⟨containsSub_self_append w ('_' :: d), append_cons_ne_self w '_' d⟩)]
      rw [lastSplitU_append _ _ hde.2, hde.1]

lemma foldl_max_const {es : List Int} {m : Int} (h : ∀ e ∈ es, e ≤ m) :
    es.foldl max m = m := by
  induction es with
  | nil => rfl
  | cons e es ih =>
    simp only [List.foldl_cons]
    rw [max_eq_left (h e (List.mem_cons_self _ _))]
    exact ih (fun x hx => h x (List.mem_cons_of_mem _ hx))

lemma foldl_max_eq {es : List Int} {m : Int} (hm : m ∈ es) (hb : ∀ e ∈ es, e ≤ m) :
    ∀ a : Int, a ≤ m → es.foldl max a = m := by
  induction es with
  | nil => cases hm
  | cons e es ih =>
    intro a ha
    simp only [List.foldl_cons]
    rcases List.mem_cons.mp hm with he | hmem
    · subst he
      rw [max_eq_right ha]
      exact foldl_max_const (fun x hx => hb x (List.mem_cons_of_mem _ hx))
    · exact ih hmem (fun x hx => hb x (List.mem_cons_of_mem _ hx)) (max a e)
        (max_le ha (hb e (List.mem_cons_self _ _)))

lemma findMaxEpoch_eq {w : List Char} {ss extras : List (List Char)} {es : List Int} {m : Int}
    (hpar : List.Forall₂ (fun d e => pyInt d = some e ∧ ('_' : Char) ∉ d) ss es)
    (hex : ∀ f ∈ extras, containsSub w f = false)
    (hm : m ∈ es) (hb : ∀ e ∈ es, e ≤ m) (hneg : (-1 : Int) ≤ m) :
    findMaxEpoch w (ss.map (fun d => w ++ '_' :: d) ++ extras) = some m := by
  unfold findMaxEpoch
  rw [List.foldl_append, foldl_findMaxStep_files hpar (-1), foldl_findMaxStep_skip hex,
    foldl_max_eq hm hb (-1) hneg]

/-- **C8**: when training is requested and the output directory pre-exists
with epoch-tagged weights files (plus any non-matching files such as
optimizer/config checkpoints), the highest epoch `m` is discovered from the
filename suffixes and both the model weights and the optimizer state are
loaded from exactly epoch `m`'s files (lines 459-473, 552-554); when the
non-empty directory holds no file matching the weights pattern, the run
fails fatally (`ValueError`, the spec's `ResumeError`) instead of silently
retraining from scratch. -/
theorem C8_checkpoint_resumption
    (w o : List Char) (ss extras : List (List Char)) (es : List Int) (m : Int) :
    (List.Forall₂ (fun d e => pyInt d = some e ∧ ('_' : Char) ∉ d) ss es →
      (∀ f ∈ extras, containsSub w f = false) →
      m ∈ es → (∀ e ∈ es, e ≤ m) → (-1 : Int) ≤ m →
      intRepr m ∈ ss →
      epochFile o m ∈ ss.map (fun d => w ++ '_' :: d) ++ extras →
      resumeModel w o (ss.map (fun d => w ++ '_' :: d) ++ extras) true =
        some ⟨some m, some m⟩)
    ∧ (∀ files : List (List Char), files ≠ [] →
        (∀ f ∈ files, containsSub w f = false) →
        resumeModel w o files true = none) := by
  constructor
  · intro hpar hex hm hb hneg hrepr ho
    have hne : ss.map (fun d => w ++ '_' :: d) ++ extras ≠ [] := by
      intro h
      rcases List.append_eq_nil.mp h with ⟨h1, _⟩
      rw [List.map_eq_nil] at h1
      rw [h1] at hrepr
      cases hrepr
    have hwmem : epochFile w m ∈ ss.map (fun d => w ++ '_' :: d) ++ extras := by
      apply List.mem_append_left
      exact List.mem_map_of_mem _ hrepr
    unfold resumeModel
    rw [if_pos ⟨hne, rfl⟩, findMaxEpoch_eq hpar hex hm hb hneg]
    dsimp only
    rw [if_pos hwmem, if_pos ho]
  · intro files hne hmatch
    have hfold : findMaxEpoch w files = some (-1) := by
      unfold findMaxEpoch
      exact foldl_findMaxStep_skip hmatch _
    unfold resumeModel
    rw [if_pos ⟨hne, rfl⟩, hfold]
    dsimp only
    rw [if_neg (fun hmem => by
      have := hmatch _ hmem
      unfold epochFile at this
      rw [containsSub_self_append] at this
      cases this)]

/-- Witness for C8: a directory with weights files for epochs {0, 1, 2}
and optimizer files for the same epochs resumes from epoch 2 for both the
model and the optimizer; a non-empty directory with no matching file
(`["x"]`) aborts. -/
theorem C8_checkpoint_resumption_witness :
    resumeModel ['w'] ['o']
        ([['0'], ['1'], ['2']].map (fun d => ['w'] ++ '_' :: d) ++
          [['o', '_', '0'], ['o', '_', '1'], ['o', '_', '2']]) true =
      some ⟨some 2, some 2⟩
    ∧ resumeModel ['w'] ['o'] [['x']] true = none := by
  constructor
  · exact (C8_checkpoint_resumption ['w'] ['o'] [['0'], ['1'], ['2']]
      [['o', '_', '0'], ['o', '_', '1'], ['o', '_', '2']] [0, 1, 2] 2).1
      (List.forall₂_cons.mpr ⟨⟨by decide, by decide⟩,
        List.forall₂_cons.mpr ⟨⟨by decide, by decide⟩,
          List.forall₂_cons.mpr ⟨⟨by decide, by decide⟩, List.Forall₂.nil⟩⟩⟩)
      (by decide) (by decide) (by decide) (by decide) (by decide) (by decide)
  · exact (C8_checkpoint_resumption ['w'] ['o'] [] [] [] 0).2 [['x']]
      (by decide) (by decide)

end Distill
